import Mathlib

/-!
Verification of the Orkflow task-orchestration engine: a shallow embedding of
the synchronized key-value store (internal/memory, SharedMemory), the output
history (agent ContextManager), the task runner (agent Runner.RunAgent), the
execution-state machine (engine State), and the workflow executor
(engine Executor), together with theorems settling the spec claims.

External collaborators (generation backends, tool executors) are modelled as
oracles: a backend is a function from (prompt, call index) to a result, and a
tool executor is a function from input to (output, optional error), matching
the narrow interfaces the engine consumes.
-/

/-- A single-quote character, used to build the exact Go error-message strings. -/
def squote : String := String.singleton (Char.ofNat 39)

/-! ## Synchronized key-value store (internal/memory: SharedMemory)

The engine only ever stores task output strings in the shared memory (RunAgent
publishes `response`, a string, and reads values back with `%v` formatting,
which is the identity on strings), so values are modelled as `String`.
The Go `map[string]interface{}` is modelled as an association list with
assignment overwriting in place. -/

def Smap := List (String × String)
deriving DecidableEq, Repr, Inhabited

/-- Go map read `data[key]`. -/
def lookupKV : Smap → String → Option String
  | [], _ => none
  | (k, v) :: rest, key => if k = key then some v else lookupKV rest key

/-- Go map assignment `data[key] = value` (SharedMemory.Set's mutation). -/
def setKV : Smap → String → String → Smap
  | [], key, value => [(key, value)]
  | (k, v) :: rest, key, value =>
      if k = key then (key, value) :: rest else (k, v) :: setKV rest key value

/-- Result of SharedMemory.WaitFor: the value, or the timeout error
`fmt.Errorf("timeout waiting for key '%s' after %v", key, timeout)`,
which names the key and the timeout. -/
inductive WaitOutcome where
  | found (v : String)
  | timeoutErr (key : String) (timeout : Nat)
deriving DecidableEq, Repr

/-- SharedMemory.WaitFor (memory.go lines 255-292). The monitor loop is
embedded over a wake schedule: the list of (store contents, current time)
snapshots the waiting goroutine observes under the lock, the first at call
time and one more after each `cond.Wait` wake (publishes broadcast, and the
per-call timer goroutine broadcasts once the remaining budget has slept, so a
wake past the deadline always arrives).  Each iteration first checks the key,
then checks the remaining budget (`remaining <= 0` iff `deadline ≤ now`), and
only then waits again, exactly as the source loop does. -/
def waitForModel (key : String) (timeout deadline : Nat) :
    List (Smap × Nat) → WaitOutcome
  | [] => .timeoutErr key timeout
  | (m, now) :: rest =>
    match lookupKV m key with
    | some v => .found v
    | none =>
      if deadline ≤ now then .timeoutErr key timeout
      else waitForModel key timeout deadline rest

/-- SharedMemory.WaitFor entry point: `deadline := time.Now().Add(timeout)`. -/
def waitFor (key : String) (timeout callTime : Nat)
    (sched : List (Smap × Nat)) : WaitOutcome :=
  waitForModel key timeout (callTime + timeout) sched

/-! ## Execution state machine (engine/state.go lines 3-61) -/

inductive WorkflowState where
  | pending
  | running
  | completed
  | failed
deriving DecidableEq, Repr

/-- engine.State: status, progress counters and last error. -/
structure EState where
  status : WorkflowState
  currentStep : Nat
  totalSteps : Nat
  err : Option String
deriving DecidableEq, Repr

def NewState (totalSteps : Nat) : EState :=
  { status := .pending, currentStep := 0, totalSteps := totalSteps, err := none }

/-- State.Start: unconditionally sets Running. -/
def EState.start (s : EState) : EState := { s with status := .running }

/-- State.Complete: unconditionally sets Completed. -/
def EState.complete (s : EState) : EState := { s with status := .completed }

/-- State.Fail: unconditionally sets Failed and records the error. -/
def EState.fail (s : EState) (e : String) : EState :=
  { s with status := .failed, err := some e }

/-- State.NextStep: increments the progress counter. -/
def EState.nextStep (s : EState) : EState :=
  { s with currentStep := s.currentStep + 1 }

def EState.isRunning (s : EState) : Bool := s.status = .running

/-! ## Output history (agent ContextManager)

The Go entry also records a timestamp (`time.Now()`); no ContextManager
operation ever reads it, so it is omitted from the embedding. -/

structure AgentOutput where
  agentID : String
  response : String
deriving DecidableEq, Repr

/-- ContextManager.AddOutput: append-only. -/
def AddOutput (h : List AgentOutput) (agentID response : String) :
    List AgentOutput :=
  h ++ [{ agentID := agentID, response := response }]

/-- The `[id]:\n<text>\n\n` block GetContext renders for one history entry. -/
def contextBlock (o : AgentOutput) : String :=
  "[" ++ o.agentID ++ "]:\n" ++ o.response ++ "\n\n"

/-- The concatenation of the per-entry blocks, in insertion order
(the loop body of GetContext's strings.Builder). -/
def joinBlocks : List AgentOutput → String
  | [] => ""
  | o :: rest => contextBlock o ++ joinBlocks rest

/-- ContextManager.GetContext: empty for an empty history, otherwise the
fixed header followed by one block per entry in insertion order. -/
def GetContext (h : List AgentOutput) : String :=
  if h.isEmpty then ""
  else "Context from previous agents:\n\n" ++ joinBlocks h

/-- ContextManager.GetLastOutput: most recent entry's text, or "". -/
def GetLastOutput (h : List AgentOutput) : String :=
  match h.getLast? with
  | none => ""
  | some o => o.response

theorem GetLastOutput_nil : GetLastOutput [] = "" := rfl

theorem GetLastOutput_append (h : List AgentOutput) (o : AgentOutput) :
    GetLastOutput (h ++ [o]) = o.response := by
  simp [GetLastOutput]

/-! ## Tool-call parsing and execution (internal/tools: parse/registry)

`ParseToolCalls` embeds the Go regular expression
`(?s)`+"```tool:([a-zA-Z_][a-zA-Z0-9_]*)\n(.*?)```"+` with
`FindAllStringSubmatch`: scan left to right, at each position try to match the
literal marker, a non-empty identifier, a newline, then the shortest body up
to the next closing fence; successful matches are non-overlapping. -/

structure ToolCall where
  name : String
  input : String
deriving DecidableEq, Repr

/-- A registered tool: name, description, and its external executor, which
returns (output, optional error) like the Go `Execute(input) (string, error)`. -/
structure ToolImpl where
  name : String
  descr : String
  exec : String → String × Option String

/-- Registry.Get: lookup by name (tools/registry). -/
def getTool (reg : List ToolImpl) (nm : String) : Option ToolImpl :=
  reg.find? (fun t => t.name == nm)

/-- The regex class `[a-zA-Z_]` (first character of a tool name). -/
def isNameStart (c : Char) : Bool :=
  ('a' ≤ c && c ≤ 'z') || ('A' ≤ c && c ≤ 'Z') || c = '_'

/-- The regex class `[a-zA-Z0-9_]` (later characters of a tool name). -/
def isNameChar (c : Char) : Bool :=
  isNameStart c || ('0' ≤ c && c ≤ '9')

/-- Strip a literal from the front of the input, if it is there. -/
def dropPre : List Char → List Char → Option (List Char)
  | [], s => some s
  | _ :: _, [] => none
  | p :: ps, c :: cs => if c = p then dropPre ps cs else none

/-- Whether the literal occurs at the front of the input. -/
def hasPre (p s : List Char) : Bool := (dropPre p s).isSome

/-- Whether the literal occurs anywhere in the input (Go strings.Contains). -/
def containsSeq (sub : List Char) : List Char → Bool
  | [] => hasPre sub []
  | c :: cs => hasPre sub (c :: cs) || containsSeq sub cs

/-- Split at the first occurrence of a delimiter: (text before, text after).
Models the lazy `(.*?)` followed by a literal. -/
def splitAtMarker (delim : List Char) : List Char → Option (List Char × List Char)
  | [] => match dropPre delim [] with
          | some rest => some ([], rest)
          | none => none
  | c :: cs =>
    match dropPre delim (c :: cs) with
    | some rest => some ([], rest)
    | none =>
      match splitAtMarker delim cs with
      | some (pre, post) => some (c :: pre, post)
      | none => none

def toolMarker : List Char := "```tool:".toList

def closeFence : List Char := "```".toList

/-- Try the whole regex at the current position: returns the captured name
characters, the captured input characters, and the text after the match.
The identifier is matched greedily; since no identifier character is a
newline, greediness is forced and no backtracking can produce another match. -/
def matchToolAt (s : List Char) : Option (List Char × List Char × List Char) :=
  match dropPre toolMarker s with
  | none => none
  | some r1 =>
    match r1 with
    | [] => none
    | c :: cs =>
      if isNameStart c then
        match cs.dropWhile isNameChar with
        | '\n' :: body =>
          match splitAtMarker closeFence body with
          | some (input, rest) => some (c :: cs.takeWhile isNameChar, input, rest)
          | none => none
        | _ => none
      else none

/-- Go unicode.IsSpace over the Latin-1 range (what strings.TrimSpace trims). -/
def goIsSpace (c : Char) : Bool :=
  c = ' ' || c = '\t' || c = '\n' || c = '\r' ||
  c = Char.ofNat 11 || c = Char.ofNat 12 || c = Char.ofNat 133 || c = Char.ofNat 160

/-- strings.TrimSpace on a character list. -/
def goTrimChars (s : List Char) : List Char :=
  ((s.dropWhile goIsSpace).reverse.dropWhile goIsSpace).reverse

/-- The left-to-right non-overlapping scan of FindAllStringSubmatch.  The fuel
starts at the input length; a failed position consumes one character and one
fuel, a successful match consumes its whole width (at least nine characters)
and one fuel, so the fuel never runs out before the input does. -/
def parseToolCallsAux : Nat → List Char → List ToolCall
  | 0, _ => []
  | _ + 1, [] => []
  | fuel + 1, c :: cs =>
    match matchToolAt (c :: cs) with
    | some (name, input, rest) =>
      { name := String.mk (goTrimChars name), input := String.mk (goTrimChars input) }
        :: parseToolCallsAux fuel rest
    | none => parseToolCallsAux fuel cs

/-- tools.ParseToolCalls (strings.TrimSpace is applied to each capture). -/
def ParseToolCalls (response : String) : List ToolCall :=
  parseToolCallsAux response.toList.length response.toList

/-- tools.HasToolCalls: strings.Contains(response, marker). -/
def HasToolCalls (response : String) : Bool :=
  containsSeq toolMarker response.toList

/-- Result slot of one tool call (tools.ToolResult). -/
structure ToolResult where
  toolName : String
  output : String
  err : Option String
deriving DecidableEq, Repr

/-- tools.ExecuteToolCalls: one result slot per call, in order; an unknown
name yields a per-call error slot and the remaining calls still run. -/
def ExecuteToolCalls (reg : List ToolImpl) (calls : List ToolCall) :
    List ToolResult :=
  calls.map (fun call =>
    match getTool reg call.name with
    | none => { toolName := call.name, output := "",
                err := some ("unknown tool: " ++ call.name) }
    | some t =>
      let r := t.exec call.input
      { toolName := call.name, output := r.1, err := r.2 })

/-- tools.FormatToolResults. -/
def FormatToolResults (results : List ToolResult) : String :=
  if results.isEmpty then ""
  else
    "\n\n=== Tool Results ===\n" ++
    String.join (results.map (fun r =>
      "\n[" ++ r.toolName ++ "]:\n" ++
      match r.err with
      | some e => "ERROR: " ++ e ++ "\n"
      | none => r.output ++ "\n"))

/-- MCPTool.Name (internal/mcp): `fmt.Sprintf("%s.%s", serverName, toolName)`. -/
def mcpToolName (serverName toolName : String) : String :=
  serverName ++ "." ++ toolName

/-! ## Task definitions (pkg/types/agent.go) -/

structure Agent where
  id : String
  model : String
  role : String := ""
  goal : String := ""
  instruction : String := ""
  tools : List String := []
  toolsets : List String := []
  outputs : List String := []
  requires : List String := []
  subAgents : List String := []
deriving DecidableEq, Repr

/-- Agent.GetPrompt: instruction overrides goal. -/
def Agent.getPrompt (a : Agent) : String :=
  if a.instruction ≠ "" then a.instruction else a.goal

/-- Agent.IsSupervisor. -/
def Agent.isSupervisor (a : Agent) : Bool := !a.subAgents.isEmpty

/-! ## Generation backends (external collaborators)

A backend behaviour is an oracle `Gen`: `g p n` is the result of the n-th
Generate call issued with prompt `p` (1-based).  The retry loop re-sends one
prompt, and the tool follow-up uses a strictly longer prompt, so indexing per
prompt distinguishes every call the runner makes. -/

def Gen := String → Nat → Except String String

/-- Runner.Clients: model name → backend behaviour. -/
def lookupClient (clients : List (String × Gen)) (nm : String) : Option Gen :=
  match clients.find? (fun c => c.1 == nm) with
  | none => none
  | some c => some c.2

def maxRetries : Nat := 3

/-- The attempt loop of Runner.RunAgent (part_004 lines 120-131), called with
`remaining = maxRetries`.  Returns (final Generate result, index of the last
attempt made, backoff waits performed).  After a failed attempt n with
`n < maxRetries` the runner sleeps n time units (`time.Sleep(attempt)`),
recorded here in order. -/
def retryAux (g : Nat → Except String String) (attempt : Nat) :
    Nat → Except String String × Nat × List Nat
  | 0 => (.error "", attempt, [])
  | 1 => (g attempt, attempt, [])
  | remaining + 2 =>
    match g attempt with
    | .ok t => (.ok t, attempt, [])
    | .error _ =>
      let r := retryAux g (attempt + 1) (remaining + 1)
      (r.1, r.2.1, attempt :: r.2.2)

def retryGenerate (g : Nat → Except String String) :
    Except String String × Nat × List Nat :=
  retryAux g 1 maxRetries

/-! ## Prompt assembly (Runner.buildPrompt, part_004 lines 201-240) -/

/-- tools.GetByNames: all named tools, or the first-missing error. -/
def getByNames (reg : List ToolImpl) : List String → Except String (List ToolImpl)
  | [] => .ok []
  | n :: ns =>
    match getTool reg n with
    | none => .error ("tool not found: " ++ n)
    | some t =>
      match getByNames reg ns with
      | .ok ts => .ok (t :: ts)
      | .error e => .error e

/-- tools.GetByPrefix: tools whose name strictly extends the given leading
string (used with `toolset ++ "."` to collect one MCP server's tools). -/
def getByPfx (reg : List ToolImpl) (p : String) : List ToolImpl :=
  reg.filter (fun t =>
    p.toList.length < t.name.toList.length && hasPre p.toList t.name.toList)

/-- tools.FormatToolsForPrompt. -/
def FormatToolsForPrompt (ts : List ToolImpl) : String :=
  if ts.isEmpty then ""
  else
    "You have access to the following tools:\n\n" ++
    String.join (ts.map (fun t => "- **" ++ t.name ++ "**: " ++ t.descr ++ "\n")) ++
    "\nTo use a tool, write your response in this format:\n" ++
    "```tool:<tool_name>\n<input for the tool>\n```\n" ++
    "\nThe tool output will be provided to you for further processing.\n"

/-- The tool list the prompt advertises: the agent's plain tools (all of
them, or none when one is missing) followed by each toolset's tools. -/
def promptTools (reg : List ToolImpl) (a : Agent) : List ToolImpl :=
  (if a.tools ≠ [] then
    match getByNames reg a.tools with
    | .ok ts => ts
    | .error _ => []
  else []) ++
  (a.toolsets.map (fun s => getByPfx reg (s ++ "."))).flatten

/-- Runner.buildPrompt: goal/instruction, then prior-session text, then the
rendered history, then the tool listing, empty sections omitted. -/
def buildPrompt (reg : List ToolImpl) (sessionHistory : String)
    (history : List AgentOutput) (a : Agent) : String :=
  let p0 := a.getPrompt
  let p1 := if sessionHistory ≠ "" then sessionHistory ++ "\n\n" ++ p0 else p0
  let ctx := GetContext history
  let p2 := if ctx ≠ "" then p1 ++ "\n\n" ++ ctx else p1
  let allTools := promptTools reg a
  if !allTools.isEmpty then p2 ++ "\n\n" ++ FormatToolsForPrompt allTools else p2

/-! ## The task runner (Runner.RunAgent, part_004 lines 67-199)

The runner state is the pair (output history, shared memory).  The CLI wires a
shared memory instance into every run, so the Go guard `r.SharedMemory != nil`
is modelled as the store being present.  The progress-indicator goroutine only
prints and is not modelled. -/

structure RunState where
  history : List AgentOutput
  shared : Smap
deriving DecidableEq, Repr

/-- Ghost instrumentation of one RunAgent call: which generation attempts and
backoff waits happened, which tool-result slots were collected, and the
follow-up prompt issued (none when no follow-up call was made). -/
structure RunTrace where
  genAttempts : Nat
  waits : List Nat
  toolResults : List ToolResult
  followupPrompt : Option String
deriving DecidableEq, Repr

def emptyTrace : RunTrace :=
  { genAttempts := 0, waits := [], toolResults := [], followupPrompt := none }

/-- The WaitFor timeout message for the fixed 5-minute budget
(`%v` of `5*time.Minute` prints as `5m0s`). -/
def waitTimeoutMsg (key : String) : String :=
  "timeout waiting for key " ++ squote ++ key ++ squote ++ " after 5m0s"

/-- RunAgent's wrap of a required-key failure. -/
def requiredKeyMsg (aid key : String) : String :=
  "agent " ++ aid ++ ": failed to get required key " ++ squote ++ key ++ squote ++
  ": " ++ waitTimeoutMsg key

/-- RunAgent's error after the retry budget is exhausted. -/
def genFailedMsg (aid : String) (e : String) : String :=
  "agent " ++ aid ++ " failed after " ++ toString maxRetries ++ " attempts: " ++ e

/-- The requires loop (part_004 lines 74-85) under sequential-mode semantics:
a single control flow means no publish can arrive during a wait, so WaitFor
returns immediately when the key is present and otherwise exhausts the fixed
timeout.  Each resolved value is appended to the history under `shared:<key>`
before the next key is awaited; on a timeout the loop aborts, keeping the
appends already made. -/
def waitRequires (aid : String) (st : RunState) :
    List String → Except (String × RunState) RunState
  | [] => .ok st
  | k :: ks =>
    match lookupKV st.shared k with
    | some v =>
      waitRequires aid
        { st with history := AddOutput st.history ("shared:" ++ k) v } ks
    | none => .error (requiredKeyMsg aid k, st)

/-- The follow-up prompt of the tool round-trip (part_004 line 164). -/
def followupOf (prompt response toolOutput : String) : String :=
  prompt ++ "\n\nPrevious response:\n" ++ response ++ toolOutput ++
  "\n\nNow provide your final response incorporating the tool results:"

/-- The tool round-trip (part_004 lines 143-172): gated on the plain tools
list being non-empty and the marker appearing in the response; executes every
parsed call in order, then issues exactly one follow-up Generate call whose
success replaces the output and whose failure keeps the pre-tool response.
Returns (final output, result slots collected, follow-up prompt issued). -/
def toolPhase (g : Gen) (reg : List ToolImpl) (a : Agent)
    (prompt response : String) : String × List ToolResult × Option String :=
  if a.tools ≠ [] && HasToolCalls response then
    let calls := ParseToolCalls response
    if calls.isEmpty then (response, [], none)
    else
      let results := ExecuteToolCalls reg calls
      let toolOutput := FormatToolResults results
      if toolOutput = "" then (response, results, none)
      else
        let fp := followupOf prompt response toolOutput
        match g fp 1 with
        | .ok f => (f, results, some fp)
        | .error _ => (response, results, some fp)
  else (response, [], none)

/-- SharedMemory publishes of the declared output keys (part_004 lines 177-185). -/
def publishAll (m : Smap) (keys : List String) (v : String) : Smap :=
  keys.foldl (fun acc k => setKV acc k v) m

/-- Runner.RunAgent in sequential-mode semantics: resolve the backend, await
required keys, build the prompt, generate with retry, run the tool
round-trip, append the final output to the history, publish the declared
output keys.  Returns (result, updated runner state, ghost trace). -/
def runAgent (clients : List (String × Gen)) (reg : List ToolImpl)
    (sessionHistory : String) (st : RunState) (a : Agent) :
    Except String String × RunState × RunTrace :=
  match lookupClient clients a.model with
  | none => (.error ("model not found: " ++ a.model), st, emptyTrace)
  | some g =>
    match waitRequires a.id st a.requires with
    | .error es => (.error es.1, es.2, emptyTrace)
    | .ok st1 =>
      let prompt := buildPrompt reg sessionHistory st1.history a
      let r := retryGenerate (fun n => g prompt n)
      match r.1 with
      | .error e =>
        (.error (genFailedMsg a.id e), st1,
         { emptyTrace with genAttempts := r.2.1, waits := r.2.2 })
      | .ok response =>
        let tp := toolPhase g reg a prompt response
        let finalResp := tp.1
        let st2 := { st1 with history := AddOutput st1.history a.id finalResp }
        let st3 := { st2 with shared := publishAll st2.shared a.outputs finalResp }
        (.ok finalResp, st3,
         { genAttempts := r.2.1, waits := r.2.2,
           toolResults := tp.2.1, followupPrompt := tp.2.2 })

/-! ## Workflow executor (engine/state.go lines 72-228)

`WorkflowSpec`'s record shape is reconstructed from its uses in the executor:
`Type` ("sequential" or "parallel"), `Steps` (each naming an agent),
`Branches` (agent ids), and the optional `Then` aggregator step. -/

structure WorkflowStep where
  agent : String
deriving DecidableEq, Repr

structure WorkflowSpec where
  typ : String
  steps : List WorkflowStep := []
  branches : List String := []
  thenStep : Option WorkflowStep := none
deriving DecidableEq, Repr

structure WorkflowConfig where
  agents : List Agent
  workflow : Option WorkflowSpec := none
deriving DecidableEq, Repr

/-- Runner.GetAgent: first declared agent with the given id. -/
def getAgent (cfg : WorkflowConfig) (id : String) : Option Agent :=
  cfg.agents.find? (fun a => a.id == id)

/-- The external collaborators one execution runs against. -/
structure ExecEnv where
  clients : List (String × Gen)
  reg : List ToolImpl
  sessionHistory : String

/-- The step loop of Executor.executeSequential (state.go lines 112-127):
resolve each step's agent (fail fast when absent), run it (fail fast on the
first error), advance the progress counter, and after the last step complete
and return the history's last output. -/
def execSeqSteps (env : ExecEnv) (cfg : WorkflowConfig) :
    List WorkflowStep → EState → RunState →
    Except String String × EState × RunState
  | [], es, rs => (.ok (GetLastOutput rs.history), es.complete, rs)
  | s :: rest, es, rs =>
    match getAgent cfg s.agent with
    | none =>
      (.error ("agent not found: " ++ s.agent),
       es.fail ("agent not found: " ++ s.agent), rs)
    | some a =>
      match runAgent env.clients env.reg env.sessionHistory rs a with
      | (.error e, rs1, _) => (.error e, es.fail e, rs1)
      | (.ok _, rs1, _) => execSeqSteps env cfg rest es.nextStep rs1

/-- Executor.executeSequential: Start, then the step loop. -/
def executeSequential (env : ExecEnv) (cfg : WorkflowConfig)
    (steps : List WorkflowStep) (es : EState) (rs : RunState) :
    Except String String × EState × RunState :=
  execSeqSteps env cfg steps es.start rs

/-! ### Parallel mode (state.go lines 133-193)

Each branch goroutine resolves and runs its agent and then, under the results
mutex, records either its error (only the first error encountered is kept) or
its response.  The embedding is parameterised by the lock-acquisition order:
a list with one entry per branch, in the order the goroutines acquired the
mutex, carrying the branch's run result, the history entries it appended and
the publishes it made to the shared store before joining. -/

deriving instance DecidableEq for Except

structure BranchRes where
  id : String
  result : Except String String
  appends : List AgentOutput
  publishes : List (String × String)
deriving DecidableEq, Repr

/-- `firstErr`: the first error in lock-acquisition order, if any. -/
def firstErrOf : List BranchRes → Option String
  | [] => none
  | b :: bs =>
    match b.result with
    | .error e => some e
    | .ok _ => firstErrOf bs

/-- All shared-memory Sets the branches performed, applied in order. -/
def applyPublishes (m : Smap) (outs : List BranchRes) : Smap :=
  outs.foldl (fun acc b =>
    b.publishes.foldl (fun a2 kv => setKV a2 kv.1 kv.2) acc) m

/-- Executor.executeParallel over a branch completion record `outs`:
join all branches, fail with the first recorded error (the aggregator is not
run and no publish is retracted), otherwise run the optional aggregator step
and on full success complete and return the history's last output. -/
def executeParallelModel (env : ExecEnv) (cfg : WorkflowConfig)
    (thenStep : Option WorkflowStep) (outs : List BranchRes)
    (es : EState) (rs : RunState) :
    Except String String × EState × RunState :=
  let es1 := es.start
  let rs1 : RunState :=
    { history := rs.history ++ (outs.map (fun b => b.appends)).flatten,
      shared := applyPublishes rs.shared outs }
  match firstErrOf outs with
  | some e => (.error e, es1.fail e, rs1)
  | none =>
    match thenStep with
    | none => (.ok (GetLastOutput rs1.history), es1.complete, rs1)
    | some s =>
      match getAgent cfg s.agent with
      | none =>
        (.error ("then agent not found: " ++ s.agent),
         es1.fail ("then agent not found: " ++ s.agent), rs1)
      | some a =>
        match runAgent env.clients env.reg env.sessionHistory rs1 a with
        | (.error e, rs2, _) => (.error e, es1.fail e, rs2)
        | (.ok _, rs2, _) => (.ok (GetLastOutput rs2.history), es1.complete, rs2)

/-! ## Claim C6: terminal states of the execution-state machine -/

/-- C6 counterexample: the claim says that after `complete()` any subsequent
`start()` leaves the status unchanged (Completed); on the code, `Start`
assigns Running unconditionally, so the status does change. -/
theorem state_terminal_counterexample :
    (((NewState 1).complete).start).status ≠ WorkflowState.completed := by
  decide

/-- C6 (amended): the State transition methods are unguarded — `Start`,
`Complete` and `Fail` assign the new status (and `Fail` the error)
regardless of the current status, so the terminal states Completed and
Failed do not reject or ignore later transitions; a transition called after
`complete()` or `fail(err)` overwrites the status, and a second `fail`
overwrites the recorded error.  (Terminality holds for whole executions only
because the Executor never invokes a transition after `complete`/`fail`.) -/
theorem state_transitions_unguarded (s : EState) (e e' : String) :
    (s.start).status = .running ∧
    (s.complete).status = .completed ∧
    (s.fail e).status = .failed ∧ (s.fail e).err = some e ∧
    ((s.complete).start).status = .running ∧
    ((s.fail e).complete).status = .completed ∧
    ((s.fail e).fail e').err = some e' := by
  refine ⟨rfl, rfl, rfl, rfl, rfl, rfl, rfl⟩

/-! ## Claim C8: rendering of the output history -/

/-- C8 counterexample: the claim says the rendering is exactly the
concatenation of the per-entry blocks with nothing before them; the code
prepends the fixed header "Context from previous agents:\n\n". -/
theorem renderContext_counterexample :
    GetContext [{ agentID := "a", response := "x" }] ≠ "[a]:\nx\n\n" := by
  decide

/-- C8 (amended): GetContext returns "" for an empty history, and otherwise
the fixed header "Context from previous agents:\n\n" followed by exactly the
concatenation, in insertion order, of one `[taskId]:\n<text>\n\n` block per
entry, with nothing after the blocks. -/
theorem renderContext_spec (h : List AgentOutput) :
    GetContext [] = "" ∧
    (h ≠ [] →
      GetContext h =
        "Context from previous agents:\n\n" ++ joinBlocks h) := by
  refine ⟨rfl, fun hne => ?_⟩
  simp [GetContext, List.isEmpty_eq_false.mpr hne]

/-- Closed instance of `renderContext_spec` at a one-entry history. -/
theorem renderContext_spec_witness :
    GetContext [{ agentID := "a", response := "x" }] =
      "Context from previous agents:\n\n" ++
        joinBlocks [{ agentID := "a", response := "x" }] :=
  (renderContext_spec [{ agentID := "a", response := "x" }]).2 (by decide)

/-! ## Claim C1: WaitFor semantics -/

/-- Helper: under a schedule in which the key never appears and some wake
happens at or past the deadline, the WaitFor loop reports the timeout. -/
theorem waitForModel_timeout (key : String) (timeout deadline : Nat)
    (sched : List (Smap × Nat))
    (hnone : ∀ p ∈ sched, lookupKV p.1 key = none)
    (hex : ∃ p ∈ sched, deadline ≤ p.2) :
    waitForModel key timeout deadline sched = .timeoutErr key timeout := by
  induction sched with
  | nil => rfl
  | cons hd tl ih =>
    obtain ⟨m, now⟩ := hd
    have hm : lookupKV m key = none := hnone (m, now) (by simp)
    by_cases hdl : deadline ≤ now
    · simp [waitForModel, hm, hdl]
    · simp only [waitForModel, hm, if_neg hdl]
      apply ih
      · exact fun p hp => hnone p (by simp [hp])
      · obtain ⟨p, hp, hple⟩ := hex
        rcases List.mem_cons.mp hp with heq | htl
        · rw [heq] at hple
          exact absurd hple hdl
        · exact ⟨p, htl, hple⟩

/-- Helper: a value returned by the WaitFor loop was read from the store,
under the requested key, at one of the observed wakes. -/
theorem waitForModel_found (key : String) (timeout deadline : Nat)
    (sched : List (Smap × Nat)) (v : String)
    (h : waitForModel key timeout deadline sched = .found v) :
    ∃ p ∈ sched, lookupKV p.1 key = some v := by
  induction sched with
  | nil => exact absurd h (by simp [waitForModel])
  | cons hd tl ih =>
    obtain ⟨m, now⟩ := hd
    rcases hm : lookupKV m key with _ | v'
    · by_cases hdl : deadline ≤ now
      · rw [waitForModel, hm] at h
        simp only [hdl, if_true] at h
        exact absurd h (by simp)
      · rw [waitForModel, hm] at h
        simp only [hdl, if_false] at h
        obtain ⟨p, hp, hpv⟩ := ih h
        exact ⟨p, by simp [hp], hpv⟩
    · rw [waitForModel, hm] at h
      obtain rfl : v' = v := by cases h; rfl
      exact ⟨(m, now), by simp, hm⟩

/-- C1: for every key and timeout, WaitFor (a) returns the stored value at
once — using only the call-time snapshot — when the key is already present;
(b) returns the TimeoutError naming the key and the timeout when the key is
never published and the timeout elapses (a wake at or past the deadline
occurs, which the timer goroutine guarantees); and (c) any value it returns
was stored under the requested key at an observed wake, never under another
key. -/
theorem waitFor_correct (key : String) (timeout callTime : Nat) (m0 : Smap)
    (t0 : Nat) (rest sched : List (Smap × Nat)) :
    (∀ v, lookupKV m0 key = some v →
      waitFor key timeout callTime ((m0, t0) :: rest) = .found v) ∧
    ((∀ p ∈ sched, lookupKV p.1 key = none) →
      (∃ p ∈ sched, callTime + timeout ≤ p.2) →
      waitFor key timeout callTime sched = .timeoutErr key timeout) ∧
    (∀ v, waitFor key timeout callTime sched = .found v →
      ∃ p ∈ sched, lookupKV p.1 key = some v) := by
  refine ⟨fun v hv => ?_, fun hnone hex => ?_, fun v hv => ?_⟩
  · simp [waitFor, waitForModel, hv]
  · exact waitForModel_timeout key timeout (callTime + timeout) sched hnone hex
  · exact waitForModel_found key timeout (callTime + timeout) sched v hv

/-- Closed instance of `waitFor_correct`: a key present at call time is
returned from the first snapshot; a key never published times out once a
wake past the deadline arrives; a returned value is traced to the store. -/
theorem waitFor_correct_witness :
    waitFor "k" 5 0 [([("k", "v")], 0)] = .found "v" ∧
    waitFor "k" 5 0 [([("other", "w")], 0), ([("other", "w")], 6)] =
      .timeoutErr "k" 5 ∧
    ∃ p ∈ [([("k", "v")], 0)], lookupKV p.1 "k" = some "v" := by
  refine ⟨(waitFor_correct "k" 5 0 [("k", "v")] 0 [] []).1 "v" (by decide),
          (waitFor_correct "k" 5 0 [] 0 []
             [([("other", "w")], 0), ([("other", "w")], 6)]).2.1
            (by decide) ⟨([("other", "w")], 6), by decide, by decide⟩,
          (waitFor_correct "k" 5 0 [("k", "v")] 0 [] [([("k", "v")], 0)]).2.2 "v"
            (by decide)⟩

/-! ## Claim C3: the bounded retry policy -/

/-- Helper: the attempt loop fully unrolled for `maxRetries = 3`. -/
theorem retryGenerate_eq (g : Nat → Except String String) :
    retryGenerate g =
      (match g 1 with
       | .ok t => (.ok t, 1, ([] : List Nat))
       | .error _ =>
         match g 2 with
         | .ok t => (.ok t, 2, [1])
         | .error _ => (g 3, 3, [1, 2])) := by
  show retryAux g 1 3 = _
  rcases h1 : g 1 with e1 | t1 <;> rcases h2 : g 2 with e2 | t2 <;>
    simp [retryAux, h1, h2]

/-- C3: the runner makes at most 3 generation attempts; the backoff waits are
exactly 1, ..., attempts-1 time units (one wait of n units after each failed
attempt n below the maximum); a successful attempt ends the loop with its
text; a backend failing exactly twice yields the successful text after waits
of 1 and 2 units; and when all 3 attempts fail, RunAgent surfaces an error
wrapping the last underlying error and reporting the attempt count 3. -/
theorem retry_policy (g : Nat → Except String String) :
    (retryGenerate g).2.1 ≤ maxRetries ∧
    (retryGenerate g).2.2 = (List.range ((retryGenerate g).2.1 - 1)).map (· + 1) ∧
    (∀ t, g 1 = .ok t → retryGenerate g = (.ok t, 1, [])) ∧
    (∀ e1 t, g 1 = .error e1 → g 2 = .ok t → retryGenerate g = (.ok t, 2, [1])) ∧
    (∀ e1 e2 t, g 1 = .error e1 → g 2 = .error e2 → g 3 = .ok t →
      retryGenerate g = (.ok t, 3, [1, 2])) ∧
    (∀ e1 e2 e3, g 1 = .error e1 → g 2 = .error e2 → g 3 = .error e3 →
      retryGenerate g = (.error e3, 3, [1, 2])) ∧
    (∀ (a : Agent) (reg : List ToolImpl) (sh : String) (st : RunState) (e : String),
      a.requires = [] →
      runAgent [(a.model, fun _ _ => Except.error e)] reg sh st a =
        (.error (genFailedMsg a.id e), st,
         { emptyTrace with genAttempts := 3, waits := [1, 2] })) := by
  refine ⟨?_, ?_, fun t h1 => ?_, fun e1 t h1 h2 => ?_,
          fun e1 e2 t h1 h2 h3 => ?_, fun e1 e2 e3 h1 h2 h3 => ?_,
          fun a reg sh st e hreq => ?_⟩
  · rw [retryGenerate_eq]
    rcases g 1 with e1 | t1 <;> rcases g 2 with e2 | t2 <;> simp [maxRetries]
  · rw [retryGenerate_eq]
    rcases g 1 with e1 | t1 <;> rcases g 2 with e2 | t2 <;>
      simp [List.range_succ]
  · rw [retryGenerate_eq, h1]
  · rw [retryGenerate_eq, h1, h2]
  · rw [retryGenerate_eq, h1, h2, h3]
  · rw [retryGenerate_eq, h1, h2, h3]
  · have hclient :
        lookupClient [(a.model, fun _ _ => Except.error e)] a.model =
          some (fun _ _ => Except.error e) := by
      simp [lookupClient]
    have hwait : waitRequires a.id st a.requires = .ok st := by
      rw [hreq]; rfl
    have hr : retryGenerate
        (fun n => (fun (_ : String) (_ : Nat) => Except.error (α := String) e)
          (buildPrompt reg sh st.history a) n) =
        (.error e, 3, [1, 2]) := by
      rw [retryGenerate_eq]
    simp only [runAgent, hclient, hwait, hr]

/-- Closed instance of `retry_policy`: a backend failing exactly twice yields
the successful text with waits 1 and 2; a backend that always fails makes
RunAgent report the wrapped three-attempt error. -/
theorem retry_policy_witness :
    retryGenerate (fun n => if n = 3 then .ok "yes" else .error "boom") =
      (.ok "yes", 3, [1, 2]) ∧
    (runAgent [("m", fun _ _ => Except.error "boom")] [] ""
        { history := [], shared := [] } { id := "a1", model := "m" }) =
      (.error (genFailedMsg "a1" "boom"), { history := [], shared := [] },
       { emptyTrace with genAttempts := 3, waits := [1, 2] }) := by
  refine ⟨(retry_policy _).2.2.2.2.1 "boom" "boom" "yes"
            (by decide) (by decide) (by decide), ?_⟩
  exact (retry_policy (fun _ => Except.error "boom")).2.2.2.2.2.2
    { id := "a1", model := "m" } [] "" { history := [], shared := [] } "boom" rfl

/-! ## Claim C10: parsed tool names versus MCP (toolset) names -/

/-- Helper: a name captured by the regex match starts with a letter or
underscore and continues with letters, digits or underscores. -/
theorem matchToolAt_name {s name input rest : List Char}
    (h : matchToolAt s = some (name, input, rest)) :
    ∃ c cs, name = c :: cs ∧ isNameStart c = true ∧
      ∀ x ∈ cs, isNameChar x = true := by
  unfold matchToolAt at h
  rcases hd : dropPre toolMarker s with _ | r1 <;> rw [hd] at h <;>
    dsimp only at h
  · simp at h
  rcases r1 with _ | ⟨c, cs⟩ <;> dsimp only at h
  · simp at h
  cases hstart : isNameStart c
  · rw [hstart] at h
    simp at h
  rw [hstart] at h
  simp only [if_true] at h
  rcases hdw : cs.dropWhile isNameChar with _ | ⟨c2, body⟩ <;> rw [hdw] at h
  · simp at h
  split at h
  · rename_i x2 body2 heq
    injection heq with heq1 heq2
    subst heq2
    rcases hsp : splitAtMarker closeFence body with _ | ⟨inp, rst⟩ <;>
      rw [hsp] at h
    · simp at h
    · simp only [Option.some.injEq, Prod.mk.injEq] at h
      obtain ⟨hname, -, -⟩ := h
      exact ⟨c, cs.takeWhile isNameChar, hname.symm, hstart,
             fun x hx => List.mem_takeWhile_imp hx⟩
  · exact absurd h (by simp)

/-- Helper: no tool-name character is Go whitespace. -/
theorem nameChar_not_space {c : Char} (h : isNameChar c = true) :
    goIsSpace c = false := by
  cases hsp : goIsSpace c
  · rfl
  · exfalso
    simp only [goIsSpace, Bool.or_eq_true, decide_eq_true_eq] at hsp
    rcases hsp with ((((((h1 | h1) | h1) | h1) | h1) | h1) | h1) | h1 <;>
      subst h1 <;> exact absurd h (by decide)

/-- Helper: trimming whitespace from a whitespace-free list is the identity. -/
theorem goTrimChars_eq_self {l : List Char}
    (h : ∀ x ∈ l, goIsSpace x = false) : goTrimChars l = l := by
  have h1 : l.dropWhile goIsSpace = l := by
    cases l with
    | nil => rfl
    | cons x xs => simp [List.dropWhile_cons, h x (by simp)]
  have h2 : l.reverse.dropWhile goIsSpace = l.reverse := by
    cases hr : l.reverse with
    | nil => rfl
    | cons x xs =>
      have hx : x ∈ l := by
        have hxr : x ∈ l.reverse := by rw [hr]; simp
        simpa using hxr
      simp [List.dropWhile_cons, h x hx]
  unfold goTrimChars
  rw [h1, h2, List.reverse_reverse]

/-- Helper: every call the scan produces has a well-formed identifier name. -/
theorem parseToolCallsAux_names (fuel : Nat) :
    ∀ (s : List Char), ∀ call ∈ parseToolCallsAux fuel s,
      ∃ c cs, call.name.toList = c :: cs ∧ isNameStart c = true ∧
        ∀ x ∈ cs, isNameChar x = true := by
  induction fuel with
  | zero => intro s call h; simp [parseToolCallsAux] at h
  | succ fuel ih =>
    intro s call h
    cases s with
    | nil => simp [parseToolCallsAux] at h
    | cons c0 cs0 =>
      rw [parseToolCallsAux] at h
      rcases hm : matchToolAt (c0 :: cs0) with _ | ⟨name, input, rest⟩ <;>
        rw [hm] at h
      · exact ih cs0 call h
      · rcases List.mem_cons.mp h with rfl | htl
        · obtain ⟨c, cs, hn, hstart, hchars⟩ := matchToolAt_name hm
          have hnospace : ∀ x ∈ name, goIsSpace x = false := by
            intro x hx
            rw [hn] at hx
            rcases List.mem_cons.mp hx with heq | hxs
            · subst heq
              exact nameChar_not_space (by simp [isNameChar, hstart])
            · exact nameChar_not_space (hchars x hxs)
          refine ⟨c, cs, ?_, hstart, hchars⟩
          show (String.mk (goTrimChars name)).toList = c :: cs
          rw [goTrimChars_eq_self hnospace]
          exact hn
        · exact ih rest call htl

/-- Whether a string matches `[a-zA-Z_][a-zA-Z0-9_]*`. -/
def validToolName (s : String) : Bool :=
  match s.toList with
  | [] => false
  | c :: cs => isNameStart c && cs.all isNameChar

/-- C10: every tool call produced by ParseToolCalls has a name matching
`[a-zA-Z_][a-zA-Z0-9_]*` — in particular never containing a dot — so it can
never equal an MCP toolset tool's registered name, which always has the form
`server.tool`; and the runner's tool round-trip is gated on the plain tools
list alone, so a task with an empty tools list never triggers it, whatever
its toolsets. -/
theorem parsed_names_never_mcp (response : String) :
    (∀ call ∈ ParseToolCalls response,
      validToolName call.name = true ∧
      '.' ∉ call.name.toList ∧
      ∀ serverName toolName : String,
        call.name ≠ mcpToolName serverName toolName) ∧
    (∀ (g : Gen) (reg : List ToolImpl) (a : Agent) (prompt resp : String),
      a.tools = [] → toolPhase g reg a prompt resp = (resp, [], none)) := by
  constructor
  · intro call hcall
    obtain ⟨c, cs, hn, hstart, hchars⟩ :=
      parseToolCallsAux_names response.toList.length response.toList call hcall
    have hdot : '.' ∉ call.name.toList := by
      rw [hn]
      intro hmem
      rcases List.mem_cons.mp hmem with heq | hcs
      · rw [← heq] at hstart
        exact absurd hstart (by decide)
      · exact absurd (hchars _ hcs) (by decide)
    refine ⟨?_, hdot, ?_⟩
    · unfold validToolName
      rw [hn]
      simp only [hstart, Bool.true_and, List.all_eq_true]
      exact fun x hx => hchars x hx
    · intro serverName toolName heq
      have hd : '.' ∈ (mcpToolName serverName toolName).toList := by
        show '.' ∈ (serverName ++ "." ++ toolName).data
        rw [String.data_append, String.data_append]
        simp [show ("." : String).data = ['.'] from rfl]
      exact hdot (by rw [heq]; exact hd)
  · intro g reg a prompt resp ht
    unfold toolPhase
    simp [ht]

/-- Closed instance of `parsed_names_never_mcp` at a concrete response:
the parsed name "calc" is a plain identifier and differs from the MCP name
"fs.read"; a task with tools=[] skips the round-trip even with a toolset. -/
theorem parsed_names_never_mcp_witness :
    validToolName "calc" = true ∧
    ("calc" : String) ≠ mcpToolName "fs" "read" ∧
    toolPhase (fun _ _ => Except.ok "x") []
      { id := "a", model := "m", toolsets := ["fs"] } "p"
      "```tool:calc\n1+1\n```" = ("```tool:calc\n1+1\n```", [], none) := by
  have h := (parsed_names_never_mcp "```tool:calc\n1+1\n```").1
    { name := "calc", input := "1+1" } (by decide)
  exact ⟨h.1, h.2.2 "fs" "read",
    (parsed_names_never_mcp "```tool:calc\n1+1\n```").2
      (fun _ _ => Except.ok "x") []
      { id := "a", model := "m", toolsets := ["fs"] } "p"
      "```tool:calc\n1+1\n```" rfl⟩

/-! ## Claim C7: sequential execution -/

/-- C7: executeSequential is `start()` followed by the step loop; with no
steps left it calls `complete()` and returns the history's last output; an
unresolved step id fails fast with the agent-not-found error and a Failed
state, leaving the runner state untouched; the first run error fails fast
with that error and a Failed state; a successful step advances the progress
counter and continues with the updated runner state; and the last output is
the most recent history entry's text, or "" with no entries. -/
theorem executeSequential_spec (env : ExecEnv) (cfg : WorkflowConfig)
    (s : WorkflowStep) (rest : List WorkflowStep) (es : EState) (rs : RunState) :
    (executeSequential env cfg (s :: rest) es rs =
      execSeqSteps env cfg (s :: rest) es.start rs) ∧
    (execSeqSteps env cfg [] es rs =
      (.ok (GetLastOutput rs.history), es.complete, rs)) ∧
    (getAgent cfg s.agent = none →
      execSeqSteps env cfg (s :: rest) es rs =
        (.error ("agent not found: " ++ s.agent),
         es.fail ("agent not found: " ++ s.agent), rs)) ∧
    (∀ a e rs1 tr, getAgent cfg s.agent = some a →
      runAgent env.clients env.reg env.sessionHistory rs a = (.error e, rs1, tr) →
      execSeqSteps env cfg (s :: rest) es rs = (.error e, es.fail e, rs1)) ∧
    (∀ a t rs1 tr, getAgent cfg s.agent = some a →
      runAgent env.clients env.reg env.sessionHistory rs a = (.ok t, rs1, tr) →
      execSeqSteps env cfg (s :: rest) es rs =
        execSeqSteps env cfg rest es.nextStep rs1) ∧
    (GetLastOutput ([] : List AgentOutput) = "" ∧
      ∀ (h : List AgentOutput) (o : AgentOutput),
        GetLastOutput (h ++ [o]) = o.response) := by
  refine ⟨rfl, rfl, fun hnone => ?_, fun a e rs1 tr ha hrun => ?_,
          fun a t rs1 tr ha hrun => ?_,
          GetLastOutput_nil, GetLastOutput_append⟩
  · rw [execSeqSteps, hnone]
  · rw [execSeqSteps, ha]
    dsimp only
    rw [hrun]
  · rw [execSeqSteps, ha]
    dsimp only
    rw [hrun]

/-- Closed instance of `executeSequential_spec`: an absent step id fails with
the agent-not-found error and a Failed state; a successful single step
completes and returns its output as the last history entry. -/
theorem executeSequential_spec_witness :
    execSeqSteps ⟨[("m", fun _ _ => Except.ok "out")], [], ""⟩
      { agents := [{ id := "a1", model := "m" }] } [⟨"missing"⟩]
      (NewState 1) { history := [], shared := [] } =
      (.error ("agent not found: " ++ "missing"),
       (NewState 1).fail ("agent not found: " ++ "missing"),
       { history := [], shared := [] }) ∧
    execSeqSteps ⟨[("m", fun _ _ => Except.ok "out")], [], ""⟩
      { agents := [{ id := "a1", model := "m" }] } [⟨"a1"⟩]
      (NewState 1) { history := [], shared := [] } =
      execSeqSteps ⟨[("m", fun _ _ => Except.ok "out")], [], ""⟩
        { agents := [{ id := "a1", model := "m" }] } []
        (NewState 1).nextStep
        { history := [{ agentID := "a1", response := "out" }], shared := [] } := by
  constructor
  · exact (executeSequential_spec _ _ ⟨"missing"⟩ [] (NewState 1)
      { history := [], shared := [] }).2.2.1 (by decide)
  · exact (executeSequential_spec _ _ ⟨"a1"⟩ [] (NewState 1)
      { history := [], shared := [] }).2.2.2.2.1
      { id := "a1", model := "m" } "out"
      { history := [{ agentID := "a1", response := "out" }], shared := [] }
      { genAttempts := 1, waits := [], toolResults := [], followupPrompt := none }
      (by decide) (by decide)

/-! ## Shared helpers: substring containment and store lemmas -/

/-- Go strings.Contains at the String level: does `sub` occur in `s`? -/
def sContains (s sub : String) : Bool := containsSeq sub.toList s.toList

theorem strToList_append (a b : String) :
    (a ++ b).toList = a.toList ++ b.toList :=
  String.data_append a b

theorem dropPre_self (p : List Char) : dropPre p p = some [] := by
  induction p with
  | nil => rfl
  | cons c cs ih => simp [dropPre, ih]

theorem dropPre_append {p a r : List Char} (b : List Char)
    (h : dropPre p a = some r) : dropPre p (a ++ b) = some (r ++ b) := by
  induction p generalizing a r with
  | nil =>
    simp only [dropPre, Option.some.injEq] at h
    rw [← h]
    rfl
  | cons c cs ih =>
    cases a with
    | nil => exact absurd h (by simp [dropPre])
    | cons x xs =>
      simp only [dropPre, List.cons_append] at h ⊢
      by_cases hx : x = c
      · rw [if_pos hx] at h ⊢
        exact ih h
      · rw [if_neg hx] at h
        exact absurd h (by simp)

theorem containsSeq_of_hasPre {sub s : List Char} (h : hasPre sub s = true) :
    containsSeq sub s = true := by
  cases s with
  | nil => exact h
  | cons c cs => simp [containsSeq, h]

theorem containsSeq_refl (s : List Char) : containsSeq s s = true :=
  containsSeq_of_hasPre (by simp [hasPre, dropPre_self])

theorem containsSeq_append_right {sub : List Char} (a : List Char)
    {b : List Char} (h : containsSeq sub b = true) :
    containsSeq sub (a ++ b) = true := by
  induction a with
  | nil => exact h
  | cons x xs ih => simp [containsSeq, ih]

theorem containsSeq_nil_sub (s : List Char) : containsSeq [] s = true := by
  cases s <;> simp [containsSeq, hasPre, dropPre]

theorem containsSeq_append_left {sub a : List Char} (b : List Char)
    (h : containsSeq sub a = true) : containsSeq sub (a ++ b) = true := by
  induction a with
  | nil =>
    have hsub : sub = [] := by
      cases sub with
      | nil => rfl
      | cons c cs => simp [containsSeq, hasPre, dropPre] at h
    rw [hsub]
    exact containsSeq_nil_sub b
  | cons x xs ih =>
    simp only [containsSeq, Bool.or_eq_true] at h
    rcases h with hp | hc
    · rcases hr : dropPre sub (x :: xs) with _ | r
      · rw [hasPre, hr] at hp
        exact absurd hp (by simp)
      · have h2 := dropPre_append b hr
        rw [List.cons_append] at h2
        exact containsSeq_of_hasPre (by simp [hasPre, h2])
    · rw [List.cons_append]
      simp [containsSeq, ih hc]

/-- A history member's block occurs in the rendered block concatenation. -/
theorem mem_joinBlocks_contains {o : AgentOutput} {h : List AgentOutput}
    (hm : o ∈ h) :
    containsSeq (contextBlock o).toList (joinBlocks h).toList = true := by
  induction h with
  | nil => cases hm
  | cons x xs ih =>
    have hdata : (joinBlocks (x :: xs)).toList =
        (contextBlock x).toList ++ (joinBlocks xs).toList :=
      strToList_append (contextBlock x) (joinBlocks xs)
    rw [hdata]
    rcases List.mem_cons.mp hm with rfl | hxs
    · exact containsSeq_append_left _ (containsSeq_refl _)
    · exact containsSeq_append_right _ (ih hxs)

/-- A history member's block occurs in the rendered context. -/
theorem mem_GetContext_contains {o : AgentOutput} {h : List AgentOutput}
    (hm : o ∈ h) : sContains (GetContext h) (contextBlock o) = true := by
  have hne : h.isEmpty = false := by
    cases h with
    | nil => cases hm
    | cons x xs => rfl
  unfold sContains GetContext
  rw [hne]
  simp only [Bool.false_eq_true, if_false]
  rw [strToList_append]
  exact containsSeq_append_right _ (mem_joinBlocks_contains hm)

theorem sContains_append_left (a b sub : String)
    (h : sContains a sub = true) : sContains (a ++ b) sub = true := by
  unfold sContains at h ⊢
  rw [strToList_append]
  exact containsSeq_append_left _ h

theorem sContains_append_right (a b sub : String)
    (h : sContains b sub = true) : sContains (a ++ b) sub = true := by
  unfold sContains at h ⊢
  rw [strToList_append]
  exact containsSeq_append_right _ h

theorem lookup_setKV (m : Smap) (k v key : String) :
    lookupKV (setKV m k v) key =
      if key = k then some v else lookupKV m key := by
  induction m with
  | nil =>
    show (if k = key then some v else lookupKV [] key) = _
    by_cases h : key = k
    · rw [if_pos h.symm, if_pos h]
    · rw [if_neg (fun hk => h hk.symm), if_neg h]
  | cons hd tl ih =>
    obtain ⟨k', v'⟩ := hd
    show lookupKV (if k' = k then (k, v) :: tl else (k', v') :: setKV tl k v) key = _
    by_cases h1 : k' = k
    · rw [if_pos h1]
      show (if k = key then some v else lookupKV tl key) = _
      by_cases h2 : key = k
      · rw [if_pos h2.symm, if_pos h2]
      · rw [if_neg (fun hk => h2 hk.symm), if_neg h2]
        show _ = (if k' = key then some v' else lookupKV tl key)
        rw [if_neg (fun hk => h2 (hk.symm.trans h1))]
    · rw [if_neg h1]
      show (if k' = key then some v' else lookupKV (setKV tl k v) key) = _
      by_cases h5 : k' = key
      · rw [if_pos h5]
        have h2 : ¬ key = k := fun hk => h1 (h5.trans hk)
        rw [if_neg h2]
        show _ = (if k' = key then some v' else lookupKV tl key)
        rw [if_pos h5]
      · rw [if_neg h5, ih]
        by_cases h2 : key = k
        · rw [if_pos h2, if_pos h2]
        · rw [if_neg h2, if_neg h2]
          show _ = (if k' = key then some v' else lookupKV tl key)
          rw [if_neg h5]

theorem lookup_publishAll_not_mem {key : String} {keys : List String}
    (m : Smap) (v : String) (h : key ∉ keys) :
    lookupKV (publishAll m keys v) key = lookupKV m key := by
  induction keys generalizing m with
  | nil => rfl
  | cons k ks ih =>
    have hk : key ≠ k := fun hk => h (by simp [hk])
    have hks : key ∉ ks := fun hks => h (by simp [hks])
    show lookupKV (publishAll (setKV m k v) ks v) key = _
    rw [ih (setKV m k v) hks, lookup_setKV, if_neg hk]

theorem lookup_publishAll_mem {key : String} {keys : List String}
    (m : Smap) (v : String) (h : key ∈ keys) :
    lookupKV (publishAll m keys v) key = some v := by
  induction keys generalizing m with
  | nil => cases h
  | cons k ks ih =>
    show lookupKV (publishAll (setKV m k v) ks v) key = some v
    by_cases hks : key ∈ ks
    · exact ih (setKV m k v) hks
    · have hk : key = k := by
        rcases List.mem_cons.mp h with hk | hk
        · exact hk
        · exact absurd hk hks
      rw [lookup_publishAll_not_mem (setKV m k v) v hks, lookup_setKV,
          if_pos hk]

theorem isSome_setKV {m : Smap} {key : String} (k v : String)
    (h : (lookupKV m key).isSome = true) :
    (lookupKV (setKV m k v) key).isSome = true := by
  rw [lookup_setKV]
  by_cases hk : key = k <;> simp [hk, h]

/-- One branch's sequence of Set calls, applied in order. -/
theorem isSome_setList_mono (ps : List (String × String)) {m : Smap}
    {key : String} (h : (lookupKV m key).isSome = true) :
    (lookupKV (ps.foldl (fun a2 kv => setKV a2 kv.1 kv.2) m) key).isSome = true := by
  induction ps generalizing m with
  | nil => exact h
  | cons p ps ih => exact ih (isSome_setKV p.1 p.2 h)

theorem isSome_setList_mem {ps : List (String × String)} (m : Smap)
    {kv : String × String} (h : kv ∈ ps) :
    (lookupKV (ps.foldl (fun a2 kv => setKV a2 kv.1 kv.2) m) kv.1).isSome = true := by
  induction ps generalizing m with
  | nil => cases h
  | cons p ps ih =>
    rcases List.mem_cons.mp h with rfl | hps
    · exact isSome_setList_mono ps (by rw [lookup_setKV, if_pos rfl]; rfl)
    · exact ih (setKV m p.1 p.2) hps

theorem isSome_applyPublishes_mono (outs : List BranchRes) {m : Smap}
    {key : String} (h : (lookupKV m key).isSome = true) :
    (lookupKV (applyPublishes m outs) key).isSome = true := by
  induction outs generalizing m with
  | nil => exact h
  | cons o os ih => exact ih (isSome_setList_mono o.publishes h)

/-- No retraction: every key any branch published is present after the join. -/
theorem isSome_applyPublishes_mem {outs : List BranchRes} (m : Smap)
    {b : BranchRes} {kv : String × String}
    (hb : b ∈ outs) (hkv : kv ∈ b.publishes) :
    (lookupKV (applyPublishes m outs) kv.1).isSome = true := by
  induction outs generalizing m with
  | nil => cases hb
  | cons o os ih =>
    rcases List.mem_cons.mp hb with rfl | hos
    · exact isSome_applyPublishes_mono os (isSome_setList_mem m hkv)
    · exact ih (o.publishes.foldl (fun a2 kv => setKV a2 kv.1 kv.2) m) hos

/-- Inversion of a successful RunAgent: the required keys resolved to some
intermediate state, the final output was appended to its history under the
task's id, and every declared output key was published with the output. -/
theorem runAgent_ok_inv {clients : List (String × Gen)} {reg : List ToolImpl}
    {sh : String} {st : RunState} {a : Agent} {out : String} {st' : RunState}
    {tr : RunTrace}
    (h : runAgent clients reg sh st a = (.ok out, st', tr)) :
    ∃ st1, waitRequires a.id st a.requires = .ok st1 ∧
      st' = { history := AddOutput st1.history a.id out,
              shared := publishAll st1.shared a.outputs out } := by
  unfold runAgent at h
  rcases hc : lookupClient clients a.model with _ | g <;> rw [hc] at h <;>
    dsimp only at h
  · simp at h
  rcases hw : waitRequires a.id st a.requires with es | st1 <;> rw [hw] at h <;>
    dsimp only at h
  · simp at h
  rcases hr : (retryGenerate fun n =>
      g (buildPrompt reg sh st1.history a) n).1 with e | resp <;> rw [hr] at h <;>
    dsimp only at h
  · simp at h
  · simp only [Prod.mk.injEq, Except.ok.injEq] at h
    obtain ⟨hout, hst, -⟩ := h
    exact ⟨st1, rfl, by rw [← hst, ← hout]⟩

theorem GetContext_eq_of_ne {h : List AgentOutput} (hne : h ≠ []) :
    GetContext h = "Context from previous agents:\n\n" ++ joinBlocks h := by
  unfold GetContext
  rw [List.isEmpty_eq_false.mpr hne]
  rfl

theorem append_ne_empty_left {a : String} (b : String) (ha : a.data ≠ []) :
    a ++ b ≠ "" := by
  intro h
  have hd : (a ++ b).data = [] := by rw [h]
  rw [String.data_append] at hd
  exact ha (List.append_eq_nil.mp hd).1

theorem GetContext_ne_empty {h : List AgentOutput} (hne : h ≠ []) :
    GetContext h ≠ "" := by
  rw [GetContext_eq_of_ne hne]
  exact append_ne_empty_left _ (by decide)

/-- A block of a history member occurs in any prompt built over that history. -/
theorem buildPrompt_contains {reg : List ToolImpl} {sh : String}
    {hist : List AgentOutput} {a : Agent} {o : AgentOutput} (hm : o ∈ hist) :
    sContains (buildPrompt reg sh hist a) (contextBlock o) = true := by
  have hctx : sContains (GetContext hist) (contextBlock o) = true :=
    mem_GetContext_contains hm
  have hne : hist ≠ [] := by
    intro heq
    rw [heq] at hm
    cases hm
  have hctxne : GetContext hist ≠ "" := GetContext_ne_empty hne
  unfold buildPrompt
  dsimp only
  rw [if_pos hctxne]
  by_cases ht : (!(promptTools reg a).isEmpty) = true
  · rw [if_pos ht]
    refine sContains_append_left _ _ _ ?_
    refine sContains_append_left _ _ _ ?_
    exact sContains_append_right _ _ _ hctx
  · rw [if_neg ht]
    exact sContains_append_right _ _ _ hctx

/-! ## Claim C4: sequential data handoff through the shared store -/

/-- C4: after task A (declaring output key "notes") completes with output
`out`, A's output is in the history and is the value stored under "notes";
task B (requiring "notes") resolves its requirement to exactly that value,
appending a `shared:notes` history entry whose text is A's exact output;
B's rendered context and B's prompt both contain the `[shared:notes]` block
with A's exact output; and before the key is published, B's run aborts with
the required-key error without consulting its backend (the result does not
depend on the backend behaviour `g`), so B's prompt is not built until A's
output is appended and published. -/
theorem sequential_handoff (clients : List (String × Gen)) (reg : List ToolImpl)
    (sh : String) (st0 st1 : RunState) (A B : Agent) (out : String)
    (trA : RunTrace)
    (hA : "notes" ∈ A.outputs)
    (hrun : runAgent clients reg sh st0 A = (.ok out, st1, trA))
    (hreq : B.requires = ["notes"]) :
    ({ agentID := A.id, response := out } : AgentOutput) ∈ st1.history ∧
    lookupKV st1.shared "notes" = some out ∧
    waitRequires B.id st1 B.requires =
      .ok { history := AddOutput st1.history "shared:notes" out,
            shared := st1.shared } ∧
    ({ agentID := "shared:notes", response := out } : AgentOutput) ∈
      AddOutput st1.history "shared:notes" out ∧
    sContains (GetContext (AddOutput st1.history "shared:notes" out))
      (contextBlock { agentID := "shared:notes", response := out }) = true ∧
    sContains (buildPrompt reg sh (AddOutput st1.history "shared:notes" out) B)
      (contextBlock { agentID := "shared:notes", response := out }) = true ∧
    (∀ (st : RunState) (clients' : List (String × Gen)) (g : Gen),
      lookupKV st.shared "notes" = none →
      lookupClient clients' B.model = some g →
      runAgent clients' reg sh st B =
        (.error (requiredKeyMsg B.id "notes"), st, emptyTrace)) := by
  obtain ⟨stmid, hwait, hst1⟩ := runAgent_ok_inv hrun
  have hshared : lookupKV st1.shared "notes" = some out := by
    rw [hst1]
    exact lookup_publishAll_mem stmid.shared out hA
  have hpre : ("shared:" ++ "notes" : String) = "shared:notes" := rfl
  have hwaitB : waitRequires B.id st1 B.requires =
      .ok { history := AddOutput st1.history "shared:notes" out,
            shared := st1.shared } := by
    rw [hreq]
    unfold waitRequires
    rw [hshared]
    rw [hpre]
    rfl
  have hmemB : ({ agentID := "shared:notes", response := out } : AgentOutput) ∈
      AddOutput st1.history "shared:notes" out := by
    unfold AddOutput
    simp
  refine ⟨?_, hshared, hwaitB, hmemB, mem_GetContext_contains hmemB,
          buildPrompt_contains hmemB, ?_⟩
  · rw [hst1]
    unfold AddOutput
    simp
  · intro st clients' g hnone hc
    have hwaitN : waitRequires B.id st B.requires =
        .error (requiredKeyMsg B.id "notes", st) := by
      rw [hreq]
      unfold waitRequires
      rw [hnone]
    unfold runAgent
    rw [hc]
    dsimp only
    rw [hwaitN]

/-- Closed instance of `sequential_handoff`: A publishes "hello" under
"notes"; B resolves it to exactly that value, and before the publish B's run
aborts with the required-key error. -/
theorem sequential_handoff_witness :
    lookupKV
      ({ history := [{ agentID := "A", response := "hello" }],
         shared := [("notes", "hello")] } : RunState).shared "notes" =
      some "hello" ∧
    runAgent [("m", fun _ _ => Except.ok "x")] [] ""
      { history := [], shared := [] }
      { id := "B", model := "m", requires := ["notes"] } =
      (.error (requiredKeyMsg "B" "notes"), { history := [], shared := [] },
       emptyTrace) := by
  have h := sequential_handoff [("m", fun _ _ => Except.ok "hello")] [] ""
    { history := [], shared := [] }
    { history := [{ agentID := "A", response := "hello" }],
      shared := [("notes", "hello")] }
    { id := "A", model := "m", outputs := ["notes"] }
    { id := "B", model := "m", requires := ["notes"] }
    "hello" { genAttempts := 1, waits := [], toolResults := [], followupPrompt := none }
    (by decide) (by decide) rfl
  exact ⟨h.2.1, h.2.2.2.2.2.2 { history := [], shared := [] }
    [("m", fun _ _ => Except.ok "x")] (fun _ _ => Except.ok "x")
    (by decide) rfl⟩

/-! ## Claim C9: partial history appends survive a required-key timeout -/

/-- Helper: the requires loop resolves a leading run of present keys,
appending one `shared:<key>` entry per resolved key, and aborts at the first
absent key with the wrap error, keeping the appends already made. -/
theorem waitRequires_leading_run (aid : String) (r1 : List String) :
    ∀ (st : RunState) (k : String) (rest : List String),
      (∀ r ∈ r1, (lookupKV st.shared r).isSome = true) →
      lookupKV st.shared k = none →
      waitRequires aid st (r1 ++ k :: rest) =
        .error (requiredKeyMsg aid k,
          { history := st.history ++ r1.map (fun r =>
              { agentID := "shared:" ++ r,
                response := (lookupKV st.shared r).getD "" }),
            shared := st.shared }) := by
  induction r1 with
  | nil =>
    intro st k rest _ hmiss
    simp only [List.nil_append, List.map_nil, List.append_nil]
    unfold waitRequires
    rw [hmiss]
  | cons r rs ih =>
    intro st k rest hall hmiss
    rcases hv : lookupKV st.shared r with _ | v
    · have hr := hall r (by simp)
      rw [hv] at hr
      exact absurd hr (by simp)
    simp only [List.cons_append]
    unfold waitRequires
    rw [hv]
    dsimp only
    have hrec := ih { st with history := AddOutput st.history ("shared:" ++ r) v }
      k rest (fun x hx => hall x (by simp [hx])) hmiss
    rw [hrec]
    simp [AddOutput, hv]

/-- C9: when the i-th required key is absent (and so, in sequential-mode
semantics, its 5-minute wait times out), run returns the required-key error,
but the `shared:<key>` entries already appended for the earlier resolved keys
remain in the Output History the runner keeps, each rendered into later
prompts' context. -/
theorem requires_timeout_keeps_appends (clients : List (String × Gen))
    (reg : List ToolImpl) (sh : String) (st : RunState) (a : Agent) (g : Gen)
    (r1 : List String) (k : String) (rest : List String)
    (hreq : a.requires = r1 ++ k :: rest)
    (hall : ∀ r ∈ r1, (lookupKV st.shared r).isSome = true)
    (hmiss : lookupKV st.shared k = none)
    (hc : lookupClient clients a.model = some g) :
    runAgent clients reg sh st a =
      (.error (requiredKeyMsg a.id k),
       { history := st.history ++ r1.map (fun r =>
           { agentID := "shared:" ++ r,
             response := (lookupKV st.shared r).getD "" }),
         shared := st.shared }, emptyTrace) ∧
    (∀ r ∈ r1,
      ({ agentID := "shared:" ++ r,
         response := (lookupKV st.shared r).getD "" } : AgentOutput) ∈
        st.history ++ r1.map (fun r =>
          { agentID := "shared:" ++ r,
            response := (lookupKV st.shared r).getD "" }) ∧
      sContains
        (GetContext (st.history ++ r1.map (fun r =>
          { agentID := "shared:" ++ r,
            response := (lookupKV st.shared r).getD "" })))
        (contextBlock { agentID := "shared:" ++ r,
                        response := (lookupKV st.shared r).getD "" }) = true) := by
  have hwait := waitRequires_leading_run a.id r1 st k rest hall hmiss
  constructor
  · unfold runAgent
    rw [hc]
    dsimp only
    rw [hreq, hwait]
  · intro r hr
    have hmem : ({ agentID := "shared:" ++ r,
                   response := (lookupKV st.shared r).getD "" } : AgentOutput) ∈
        st.history ++ r1.map (fun r =>
          { agentID := "shared:" ++ r,
            response := (lookupKV st.shared r).getD "" }) := by
      apply List.mem_append_right
      exact List.mem_map_of_mem _ hr
    exact ⟨hmem, mem_GetContext_contains hmem⟩

/-- Closed instance of `requires_timeout_keeps_appends`: requires = ["x", "y"]
with "x" present and "y" absent — run fails with the wrap error for "y",
and the `shared:x` entry stays in the history. -/
theorem requires_timeout_keeps_appends_witness :
    runAgent [("m", fun _ _ => Except.ok "out")] [] ""
      { history := [], shared := [("x", "1")] }
      { id := "a1", model := "m", requires := ["x", "y"] } =
      (.error (requiredKeyMsg "a1" "y"),
       { history := [{ agentID := "shared:x", response := "1" }],
         shared := [("x", "1")] }, emptyTrace) := by
  have h := (requires_timeout_keeps_appends [("m", fun _ _ => Except.ok "out")] [] ""
    { history := [], shared := [("x", "1")] }
    { id := "a1", model := "m", requires := ["x", "y"] }
    (fun _ _ => Except.ok "out") ["x"] "y" []
    rfl (by decide) (by decide) rfl).1
  rw [h]
  decide

/-! ## Claim C5: the tool round-trip -/

theorem FormatToolResults_ne_empty {results : List ToolResult}
    (h : results ≠ []) : FormatToolResults results ≠ "" := by
  unfold FormatToolResults
  rw [List.isEmpty_eq_false.mpr h]
  simp only [Bool.false_eq_true, if_false]
  exact append_ne_empty_left _ (by decide)

/-- C5 counterexample: the claim quantifies over tasks with "any tools or
toolsets"; on the code the round-trip is gated on the plain tools list, so a
task with only a toolset, given a response with a valid tool block, executes
no tool and issues no follow-up call. -/
theorem tool_roundtrip_counterexample :
    ({ id := "a", model := "m", toolsets := ["fs"] } : Agent).toolsets ≠ [] ∧
    ParseToolCalls "```tool:calc\n1+1\n```" ≠ [] ∧
    toolPhase (fun _ _ => Except.ok "FOLLOWUP")
      [{ name := "calc", descr := "d", exec := fun _ => ("2", none) }]
      { id := "a", model := "m", toolsets := ["fs"] } "p"
      "```tool:calc\n1+1\n```" =
      ("```tool:calc\n1+1\n```", [], none) := by
  refine ⟨by decide, by decide, ?_⟩
  rfl

/-- C5 (amended): for every task whose plain tools list is non-empty (a task
with only toolsets never triggers the round-trip) and every raw response
containing tool-invocation blocks, the runner executes each named tool in the
order the blocks appear — an unknown name yields a per-call error slot
without aborting the other calls — then issues exactly one follow-up
generate call with the original prompt, the previous response and all
formatted results; if the follow-up succeeds its text replaces the output,
if it fails the pre-tool response is kept, and the task still returns
successfully. -/
theorem tool_roundtrip (g : Gen) (reg : List ToolImpl) (a : Agent)
    (prompt resp : String)
    (htools : a.tools ≠ [])
    (hhas : HasToolCalls resp = true)
    (hcalls : ParseToolCalls resp ≠ []) :
    ((ExecuteToolCalls reg (ParseToolCalls resp)).map (fun r => r.toolName) =
      (ParseToolCalls resp).map (fun c => c.name)) ∧
    (∀ call ∈ ParseToolCalls resp, getTool reg call.name = none →
      ({ toolName := call.name, output := "",
         err := some ("unknown tool: " ++ call.name) } : ToolResult) ∈
        ExecuteToolCalls reg (ParseToolCalls resp)) ∧
    (∀ call ∈ ParseToolCalls resp, ∀ t, getTool reg call.name = some t →
      ({ toolName := call.name, output := (t.exec call.input).1,
         err := (t.exec call.input).2 } : ToolResult) ∈
        ExecuteToolCalls reg (ParseToolCalls resp)) ∧
    toolPhase g reg a prompt resp =
      ((match g (followupOf prompt resp
          (FormatToolResults (ExecuteToolCalls reg (ParseToolCalls resp)))) 1 with
        | .ok f => f
        | .error _ => resp),
       ExecuteToolCalls reg (ParseToolCalls resp),
       some (followupOf prompt resp
         (FormatToolResults (ExecuteToolCalls reg (ParseToolCalls resp))))) ∧
    (∀ f, g (followupOf prompt resp
        (FormatToolResults (ExecuteToolCalls reg (ParseToolCalls resp)))) 1 =
          .ok f →
      (toolPhase g reg a prompt resp).1 = f) ∧
    (∀ e, g (followupOf prompt resp
        (FormatToolResults (ExecuteToolCalls reg (ParseToolCalls resp)))) 1 =
          .error e →
      (toolPhase g reg a prompt resp).1 = resp) ∧
    (∀ (clients : List (String × Gen)) (sh : String) (st st1 : RunState),
      lookupClient clients a.model = some g →
      waitRequires a.id st a.requires = .ok st1 →
      buildPrompt reg sh st1.history a = prompt →
      (retryGenerate fun n => g prompt n).1 = .ok resp →
      (runAgent clients reg sh st a).1 =
        .ok ((toolPhase g reg a prompt resp).1)) := by
  have hresne : ExecuteToolCalls reg (ParseToolCalls resp) ≠ [] := by
    unfold ExecuteToolCalls
    intro hmap
    exact hcalls (List.map_eq_nil_iff.mp hmap)
  have hb : (a.tools ≠ [] && HasToolCalls resp) = true := by
    rw [hhas]
    simp [htools]
  have hphase : toolPhase g reg a prompt resp =
      ((match g (followupOf prompt resp
          (FormatToolResults (ExecuteToolCalls reg (ParseToolCalls resp)))) 1 with
        | .ok f => f
        | .error _ => resp),
       ExecuteToolCalls reg (ParseToolCalls resp),
       some (followupOf prompt resp
         (FormatToolResults (ExecuteToolCalls reg (ParseToolCalls resp))))) := by
    unfold toolPhase
    rw [if_pos hb]
    dsimp only
    rw [List.isEmpty_eq_false.mpr hcalls]
    simp only [Bool.false_eq_true, if_false]
    rw [if_neg (FormatToolResults_ne_empty hresne)]
    rcases hg : g (followupOf prompt resp
        (FormatToolResults (ExecuteToolCalls reg (ParseToolCalls resp)))) 1 with
      e | f <;> rfl
  refine ⟨?_, ?_, ?_, hphase, ?_, ?_, ?_⟩
  · unfold ExecuteToolCalls
    rw [List.map_map]
    apply List.map_congr_left
    intro call _
    rcases hg : getTool reg call.name with _ | t <;> simp [hg]
  · intro call hc hg
    unfold ExecuteToolCalls
    exact List.mem_map.mpr ⟨call, hc, by rw [hg]⟩
  · intro call hc t hg
    unfold ExecuteToolCalls
    exact List.mem_map.mpr ⟨call, hc, by rw [hg]⟩
  · intro f hf
    rw [hphase]
    dsimp only
    rw [hf]
  · intro e he
    rw [hphase]
    dsimp only
    rw [he]
  · intro clients sh st st1 hc hw hbp hr
    unfold runAgent
    rw [hc]
    dsimp only
    rw [hw]
    dsimp only
    rw [hbp, hr]

/-- Closed instance of `tool_roundtrip`: a known calc call is executed and
the successful follow-up text replaces the output. -/
theorem tool_roundtrip_witness :
    (toolPhase (fun _ _ => Except.ok "FINAL")
      [{ name := "calc", descr := "d", exec := fun _ => ("2", none) }]
      { id := "a", model := "m", tools := ["calc"] } "p"
      "```tool:calc\n1+1\n```").1 = "FINAL" :=
  (tool_roundtrip (fun _ _ => Except.ok "FINAL")
    [{ name := "calc", descr := "d", exec := fun _ => ("2", none) }]
    { id := "a", model := "m", tools := ["calc"] } "p"
    "```tool:calc\n1+1\n```"
    (by decide) (by decide) (by decide)).2.2.2.2.1 "FINAL" rfl

/-! ## Claim C2: parallel branch failure -/

/-- Helper: `firstErr` is the error of the first failing entry in
lock-acquisition order. -/
theorem firstErrOf_first (pre : List BranchRes) :
    ∀ (b : BranchRes) (post : List BranchRes) (e' : String),
      (∀ p ∈ pre, ∀ e0, p.result ≠ .error e0) →
      b.result = .error e' →
      firstErrOf (pre ++ b :: post) = some e' := by
  induction pre with
  | nil =>
    intro b post e' _ hb
    rw [List.nil_append]
    unfold firstErrOf
    rw [hb]
  | cons p ps ih =>
    intro b post e' hpre hb
    rw [List.cons_append]
    unfold firstErrOf
    rcases hp : p.result with e0 | t
    · exact absurd hp (hpre p (by simp) e0)
    · exact ih b post e' (fun q hq => hpre q (by simp [hq])) hb

/-- C2: when any parallel branch fails, execute returns the first branch
error recorded under the results lock with an empty output and a Failed
state; the aggregator is not run (the result is the same whatever aggregator
step is configured); every key any branch published — in particular every
key a succeeding branch published — is still present in the store afterward
(branches are not cancelled and no partial write is retracted); the recorded
error is the first failing branch's error in lock order; and a succeeding
branch published every one of its declared output keys with its response. -/
theorem parallel_branch_failure (env : ExecEnv) (cfg : WorkflowConfig)
    (thenStep : Option WorkflowStep) (outs : List BranchRes)
    (es : EState) (rs : RunState) (e : String)
    (hfail : firstErrOf outs = some e) :
    executeParallelModel env cfg thenStep outs es rs =
      (.error e, (es.start).fail e,
       { history := rs.history ++ (outs.map (fun b => b.appends)).flatten,
         shared := applyPublishes rs.shared outs }) ∧
    executeParallelModel env cfg thenStep outs es rs =
      executeParallelModel env cfg none outs es rs ∧
    ((es.start).fail e).status = .failed ∧
    (∀ b ∈ outs, ∀ kv ∈ b.publishes,
      (lookupKV (applyPublishes rs.shared outs) kv.1).isSome = true) ∧
    (∀ (pre : List BranchRes) (b : BranchRes) (post : List BranchRes)
       (e' : String),
      outs = pre ++ b :: post →
      (∀ p ∈ pre, ∀ e0, p.result ≠ .error e0) →
      b.result = .error e' → firstErrOf outs = some e') ∧
    (∀ (clients : List (String × Gen)) (reg : List ToolImpl) (sh : String)
       (st st' : RunState) (a : Agent) (out : String) (tr : RunTrace),
      runAgent clients reg sh st a = (.ok out, st', tr) →
      ∀ key ∈ a.outputs, lookupKV st'.shared key = some out) := by
  have hrun1 : executeParallelModel env cfg thenStep outs es rs =
      (.error e, (es.start).fail e,
       { history := rs.history ++ (outs.map (fun b => b.appends)).flatten,
         shared := applyPublishes rs.shared outs }) := by
    unfold executeParallelModel
    dsimp only
    rw [hfail]
  have hrun2 : executeParallelModel env cfg none outs es rs =
      (.error e, (es.start).fail e,
       { history := rs.history ++ (outs.map (fun b => b.appends)).flatten,
         shared := applyPublishes rs.shared outs }) := by
    unfold executeParallelModel
    dsimp only
    rw [hfail]
  refine ⟨hrun1, hrun1.trans hrun2.symm, rfl, ?_, ?_, ?_⟩
  · intro b hb kv hkv
    exact isSome_applyPublishes_mem rs.shared hb hkv
  · intro pre b post e' houts hpre hb
    rw [houts]
    exact firstErrOf_first pre b post e' hpre hb
  · intro clients reg sh st st' a out tr hrun key hkey
    obtain ⟨st1, -, hst'⟩ := runAgent_ok_inv hrun
    rw [hst']
    exact lookup_publishAll_mem st1.shared out hkey

/-- Closed instance of `parallel_branch_failure`: branches {B1 succeeds and
publishes k1, B2 fails} — execute returns B2's error with a Failed state
while B1's published key is still present in the store. -/
theorem parallel_branch_failure_witness :
    executeParallelModel ⟨[], [], ""⟩ { agents := [] } (some ⟨"agg"⟩)
      [{ id := "B1", result := .ok "r1",
         appends := [{ agentID := "B1", response := "r1" }],
         publishes := [("k1", "r1")] },
       { id := "B2", result := .error "boom", appends := [], publishes := [] }]
      (NewState 3) { history := [], shared := [] } =
      (.error "boom", ((NewState 3).start).fail "boom",
       { history := [{ agentID := "B1", response := "r1" }],
         shared := [("k1", "r1")] }) ∧
    (lookupKV
      (applyPublishes ([] : Smap)
        [{ id := "B1", result := .ok "r1",
           appends := [{ agentID := "B1", response := "r1" }],
           publishes := [("k1", "r1")] },
         { id := "B2", result := .error "boom", appends := [],
           publishes := [] }]) "k1").isSome = true := by
  have h := parallel_branch_failure ⟨[], [], ""⟩ { agents := [] }
    (some ⟨"agg"⟩)
    [{ id := "B1", result := .ok "r1",
       appends := [{ agentID := "B1", response := "r1" }],
       publishes := [("k1", "r1")] },
     { id := "B2", result := .error "boom", appends := [], publishes := [] }]
    (NewState 3) { history := [], shared := [] } "boom" (by decide)
  constructor
  · rw [h.1]
    decide
  · exact h.2.2.2.1
      { id := "B1", result := .ok "r1",
        appends := [{ agentID := "B1", response := "r1" }],
        publishes := [("k1", "r1")] }
      (by decide) ("k1", "r1") (by decide)
